import Mathlib

/-!
Shallow embedding of the transcription-normalization core of
`trans_transcriber.py` (the `filter_duplicates` and
`format_diarized_transcription` functions), together with theorems about
the deduplication and speaker-grouping pipeline.

Timestamps (Python floats holding seconds) are modelled as rationals, and
the provider's attribute-bearing utterance objects as records with
`Option` fields for the attributes the code reads defensively or that may
be absent.  Python's `set` of seen texts is modelled as a list used only
through membership, and raising an exception is modelled with `Except`.
-/

namespace TransTranscriber

/-- Python's `str.strip()`: remove whitespace from both ends of a string. -/
def strip (s : String) : String :=
  ⟨((s.data.dropWhile Char.isWhitespace).reverse.dropWhile Char.isWhitespace).reverse⟩

/-- An input utterance record from the transcription provider.  The code
reads `utterance.transcript`, `utterance.start`, `utterance.end` by plain
attribute access and `utterance.speaker` via `getattr` with a default;
`start`/`end_` are `Option` so that a record missing one of those
attributes is representable (reading it then fails, as the attribute
access does in Python). -/
structure Utterance where
  transcript : String
  start : Option ℚ
  end_ : Option ℚ
  speaker : Option String
  deriving Repr, DecidableEq

/-- A word record from the fallback word-level data; only its
`punctuated_word` attribute is read. -/
structure Word where
  punctuated_word : String
  deriving Repr, DecidableEq

/-- The dictionary appended to `filtered` at lines 42-47 of
`trans_transcriber.py`. -/
structure Cleaned where
  start_time : ℚ
  end_time : ℚ
  speaker : String
  text : String
  deriving Repr, DecidableEq

/-- The error produced when an utterance record lacks a required `start` or
`end` timestamp attribute: in the Python source this surfaces as the
exception raised at the attribute read (lines 32-33), which the spec's
error taxonomy calls `MalformedInputError`.  The string names the missing
attribute. -/
inductive MalformedInputError where
  | missing : String → MalformedInputError
  deriving Repr, DecidableEq

/-- The condition `filtered and abs(start_time - filtered[-1]["end_time"]) < 0.5`
at line 38: true when the kept output is non-empty and the candidate's
start time is within half a second of the last kept utterance's end time. -/
def overlapsLast (filtered : List Cleaned) (start_time : ℚ) : Bool :=
  match filtered.getLast? with
  | none => false
  | some last => decide (|start_time - last.end_time| < (1 / 2 : ℚ))

/-- The loop of `filter_duplicates` (lines 30-48): `filtered` is the output
built so far and `seen_texts` the set of already-kept trimmed texts.  A
candidate's `transcript`, `start` and `end` attributes are read before any
check, so a record missing a timestamp fails even if its text is a
duplicate. -/
def filterLoop : List Utterance → List Cleaned → List String →
    Except MalformedInputError (List Cleaned)
  | [], filtered, _ => Except.ok filtered
  | u :: us, filtered, seen_texts =>
    let text := strip u.transcript
    match u.start with
    | none => Except.error (MalformedInputError.missing "start")
    | some start_time =>
      match u.end_ with
      | none => Except.error (MalformedInputError.missing "end")
      | some end_time =>
        if text ∈ seen_texts then
          filterLoop us filtered seen_texts
        else if overlapsLast filtered start_time then
          filterLoop us filtered seen_texts
        else
          filterLoop us
            (filtered ++ [{ start_time := start_time, end_time := end_time,
                            speaker := u.speaker.getD "Unknown Speaker", text := text }])
            (seen_texts ++ [text])

/-- `filter_duplicates` (lines 23-50): filter out duplicate or overlapping
utterances based on timestamps and text similarity. -/
def filter_duplicates (utterances : List Utterance) :
    Except MalformedInputError (List Cleaned) :=
  filterLoop utterances [] []

/-- The cleaned record an utterance with both timestamps present turns
into when it is kept (speaker defaulted, text trimmed); the `getD 0` on
the timestamps is irrelevant for well-formed records. -/
def cleanOf (u : Utterance) : Cleaned :=
  { start_time := u.start.getD 0, end_time := u.end_.getD 0,
    speaker := u.speaker.getD "Unknown Speaker", text := strip u.transcript }

/-- The loop state of the grouping pass of `format_diarized_transcription`:
completed blocks, the current speaker (initially Python `None`) and the
accumulated texts of the current block. -/
structure GroupState where
  blocks : List String
  current_speaker : Option String
  current_text : List String
  deriving Repr, DecidableEq

/-- Flush the pending block: `if current_speaker is not None:
speaker_transcriptions.append(f"{current_speaker}: {' '.join(current_text)}")`
(lines 71-74 and 80-83). -/
def flushBlock (st : GroupState) : List String :=
  match st.current_speaker with
  | none => st.blocks
  | some cs => st.blocks ++ [cs ++ ": " ++ String.intercalate " " st.current_text]

/-- One iteration of the grouping loop (lines 62-77). -/
def groupStep (st : GroupState) (u : Cleaned) : GroupState :=
  if some u.speaker = st.current_speaker then
    { st with current_text := st.current_text ++ [u.text] }
  else
    { blocks := flushBlock st, current_speaker := some u.speaker,
      current_text := [u.text] }

/-- The rendering of a filtered utterance list by the primary branch:
group consecutive same-speaker entries, flush the final block, join blocks
with a blank line (lines 62-83 and 94). -/
def renderGrouped (filtered : List Cleaned) : String :=
  String.intercalate "\n\n" (flushBlock (filtered.foldl groupStep ⟨[], none, []⟩))

/-- The fallback loop over word-level data (lines 85-92): exact-text dedup
via a seen-set; each kept word becomes its own `"Unknown Speaker: "` block. -/
def wordsLoop : List Word → List String → List String
  | [], _ => []
  | w :: ws, seen_texts =>
    let text := strip w.punctuated_word
    if text ∈ seen_texts then
      wordsLoop ws seen_texts
    else
      ("Unknown Speaker: " ++ text) :: wordsLoop ws (seen_texts ++ [text])

/-- `format_diarized_transcription` (lines 52-94).  Python's `None`
defaults and truthiness collapse `None` and the empty list, so both
arguments are plain lists; the words loop over an empty list contributes
no blocks, exactly as the `elif words:` guard.  A missing-timestamp error
from `filter_duplicates` propagates to the caller. -/
def format_diarized_transcription (utterances : List Utterance) (words : List Word) :
    Except MalformedInputError String :=
  if utterances ≠ [] then
    match filter_duplicates utterances with
    | Except.error e => Except.error e
    | Except.ok filtered => Except.ok (renderGrouped filtered)
  else
    Except.ok (String.intercalate "\n\n" (wordsLoop words []))

/-- Specification-side description of first-occurrence exact-text
deduplication (worker): keep a text iff it is not in `seen` and has not
occurred earlier in the list. -/
def dedupFirstAux : List String → List String → List String
  | [], _ => []
  | t :: ts, seen =>
    if t ∈ seen then dedupFirstAux ts seen
    else t :: dedupFirstAux ts (seen ++ [t])

/-- Specification-side description of first-occurrence exact-text
deduplication, used to characterize the fallback branch. -/
def dedupFirst (ts : List String) : List String :=
  dedupFirstAux ts []

/-- Fixture: an utterance with text `"A"` spanning seconds 0-10. -/
def uA : Utterance := ⟨"A", some 0, some 10, none⟩

/-- Fixture: an utterance whose text trims to `"X"`, starting exactly at
`uA`'s end (so it is overlap-suppressed after `uA` is kept). -/
def uX1 : Utterance := ⟨" X ", some 10, some 11, none⟩

/-- Fixture: a second utterance with trimmed text `"X"`, far from `uX1`. -/
def uX2 : Utterance := ⟨"X", some 20, some 21, none⟩

/-! ## Step lemmas for the deduplication loop -/

theorem overlapsLast_false_of_getLast (filtered : List Cleaned) (c : Cleaned) (s : ℚ)
    (hl : filtered.getLast? = some c) (h : ¬|s - c.end_time| < (1 / 2 : ℚ)) :
    overlapsLast filtered s = false := by
  unfold overlapsLast
  rw [hl]
  exact decide_eq_false h

theorem overlapsLast_true_of_getLast (filtered : List Cleaned) (c : Cleaned) (s : ℚ)
    (hl : filtered.getLast? = some c) (h : |s - c.end_time| < (1 / 2 : ℚ)) :
    overlapsLast filtered s = true := by
  unfold overlapsLast
  rw [hl]
  exact decide_eq_true h

theorem filterLoop_cons_noStart (u : Utterance) (us : List Utterance)
    (filtered : List Cleaned) (seen : List String) (hs : u.start = none) :
    filterLoop (u :: us) filtered seen =
      Except.error (MalformedInputError.missing "start") := by
  simp only [filterLoop, hs]

theorem filterLoop_cons_noEnd (u : Utterance) (us : List Utterance)
    (filtered : List Cleaned) (seen : List String) (s : ℚ)
    (hs : u.start = some s) (he : u.end_ = none) :
    filterLoop (u :: us) filtered seen =
      Except.error (MalformedInputError.missing "end") := by
  simp only [filterLoop, hs, he]

theorem filterLoop_cons_seen (u : Utterance) (us : List Utterance)
    (filtered : List Cleaned) (seen : List String) (s e : ℚ)
    (hs : u.start = some s) (he : u.end_ = some e)
    (hmem : strip u.transcript ∈ seen) :
    filterLoop (u :: us) filtered seen = filterLoop us filtered seen := by
  simp only [filterLoop, hs, he, if_pos hmem]

theorem filterLoop_cons_overlap (u : Utterance) (us : List Utterance)
    (filtered : List Cleaned) (seen : List String) (s e : ℚ)
    (hs : u.start = some s) (he : u.end_ = some e)
    (hmem : strip u.transcript ∉ seen) (hov : overlapsLast filtered s = true) :
    filterLoop (u :: us) filtered seen = filterLoop us filtered seen := by
  simp only [filterLoop, hs, he, if_neg hmem, hov, if_pos]

theorem filterLoop_cons_keep (u : Utterance) (us : List Utterance)
    (filtered : List Cleaned) (seen : List String) (s e : ℚ)
    (hs : u.start = some s) (he : u.end_ = some e)
    (hmem : strip u.transcript ∉ seen) (hov : overlapsLast filtered s = false) :
    filterLoop (u :: us) filtered seen =
      filterLoop us
        (filtered ++ [{ start_time := s, end_time := e,
                        speaker := u.speaker.getD "Unknown Speaker",
                        text := strip u.transcript }])
        (seen ++ [strip u.transcript]) := by
  simp only [filterLoop, hs, he, if_neg hmem, hov, Bool.false_eq_true, if_false]

/-! ## Invariants of the deduplication loop -/

theorem filterLoop_error_of_malformed (us : List Utterance) (filtered : List Cleaned)
    (seen : List String) (h : ∃ u ∈ us, u.start = none ∨ u.end_ = none) :
    ∃ e, filterLoop us filtered seen = Except.error e := by
  induction us generalizing filtered seen with
  | nil => simp at h
  | cons u us ih =>
    cases hs : u.start with
    | none => exact ⟨_, filterLoop_cons_noStart u us filtered seen hs⟩
    | some s =>
      cases he : u.end_ with
      | none => exact ⟨_, filterLoop_cons_noEnd u us filtered seen s hs he⟩
      | some e =>
        have htail : ∃ v ∈ us, v.start = none ∨ v.end_ = none := by
          rcases h with ⟨v, hv, hbad⟩
          rcases List.mem_cons.mp hv with rfl | hv'
          · rcases hbad with h1 | h1
            · rw [h1] at hs; cases hs
            · rw [h1] at he; cases he
          · exact ⟨v, hv', hbad⟩
        by_cases hmem : strip u.transcript ∈ seen
        · rw [filterLoop_cons_seen u us filtered seen s e hs he hmem]
          exact ih filtered seen htail
        · cases hov : overlapsLast filtered s with
          | true =>
            rw [filterLoop_cons_overlap u us filtered seen s e hs he hmem hov]
            exact ih filtered seen htail
          | false =>
            rw [filterLoop_cons_keep u us filtered seen s e hs he hmem hov]
            exact ih _ _ htail

theorem filterLoop_sublist (us : List Utterance) (filtered : List Cleaned)
    (seen : List String) (out : List Cleaned)
    (h : filterLoop us filtered seen = Except.ok out) :
    ∃ t, out = filtered ++ t ∧ t.Sublist (us.map cleanOf) := by
  induction us generalizing filtered seen out with
  | nil =>
    refine ⟨[], ?_, List.nil_sublist _⟩
    simp only [filterLoop, Except.ok.injEq] at h
    simp [h.symm]
  | cons u us ih =>
    cases hs : u.start with
    | none => rw [filterLoop_cons_noStart u us filtered seen hs] at h; cases h
    | some s =>
      cases he : u.end_ with
      | none => rw [filterLoop_cons_noEnd u us filtered seen s hs he] at h; cases h
      | some e =>
        by_cases hmem : strip u.transcript ∈ seen
        · rw [filterLoop_cons_seen u us filtered seen s e hs he hmem] at h
          obtain ⟨t, ht, hsub⟩ := ih filtered seen out h
          exact ⟨t, ht, hsub.cons (cleanOf u)⟩
        · cases hov : overlapsLast filtered s with
          | true =>
            rw [filterLoop_cons_overlap u us filtered seen s e hs he hmem hov] at h
            obtain ⟨t, ht, hsub⟩ := ih filtered seen out h
            exact ⟨t, ht, hsub.cons (cleanOf u)⟩
          | false =>
            rw [filterLoop_cons_keep u us filtered seen s e hs he hmem hov] at h
            obtain ⟨t, ht, hsub⟩ := ih _ _ out h
            have hc : cleanOf u =
                Cleaned.mk s e (u.speaker.getD "Unknown Speaker") (strip u.transcript) := by
              simp [cleanOf, hs, he]
            refine ⟨cleanOf u :: t, ?_, ?_⟩
            · rw [ht, hc, List.append_assoc, List.singleton_append]
            · rw [List.map_cons]
              exact hsub.cons₂ (cleanOf u)

theorem filterLoop_texts_nodup (us : List Utterance) (filtered : List Cleaned)
    (seen : List String) (out : List Cleaned)
    (h : filterLoop us filtered seen = Except.ok out)
    (hnd : (filtered.map Cleaned.text).Nodup)
    (hsub : ∀ x ∈ filtered.map Cleaned.text, x ∈ seen) :
    (out.map Cleaned.text).Nodup := by
  induction us generalizing filtered seen out with
  | nil =>
    simp only [filterLoop, Except.ok.injEq] at h
    rwa [← h]
  | cons u us ih =>
    cases hs : u.start with
    | none => rw [filterLoop_cons_noStart u us filtered seen hs] at h; cases h
    | some s =>
      cases he : u.end_ with
      | none => rw [filterLoop_cons_noEnd u us filtered seen s hs he] at h; cases h
      | some e =>
        by_cases hmem : strip u.transcript ∈ seen
        · rw [filterLoop_cons_seen u us filtered seen s e hs he hmem] at h
          exact ih filtered seen out h hnd hsub
        · cases hov : overlapsLast filtered s with
          | true =>
            rw [filterLoop_cons_overlap u us filtered seen s e hs he hmem hov] at h
            exact ih filtered seen out h hnd hsub
          | false =>
            rw [filterLoop_cons_keep u us filtered seen s e hs he hmem hov] at h
            refine ih _ _ out h ?_ ?_
            · simp only [List.map_append, List.map_cons, List.map_nil]
              rw [List.nodup_append]
              refine ⟨hnd, List.nodup_singleton _, ?_⟩
              intro x hx
              simp only [List.mem_singleton]
              intro hx'
              exact hmem (hx' ▸ hsub x hx)
            · intro x hx
              simp only [List.map_append, List.map_cons, List.map_nil,
                List.mem_append, List.mem_singleton] at hx
              rcases hx with hx | hx
              · exact List.mem_append_left _ (hsub x hx)
              · exact List.mem_append_right _ (by simp [hx])

/-! ## The fallback (word-level) branch -/

theorem wordsLoop_eq_map_dedup (ws : List Word) (seen : List String) :
    wordsLoop ws seen =
      (dedupFirstAux (ws.map fun w => strip w.punctuated_word) seen).map
        (fun t => "Unknown Speaker: " ++ t) := by
  induction ws generalizing seen with
  | nil => simp [wordsLoop, dedupFirstAux]
  | cons w ws ih =>
    by_cases hmem : strip w.punctuated_word ∈ seen
    · simp only [wordsLoop, List.map_cons, dedupFirstAux, if_pos hmem]
      exact ih seen
    · simp only [wordsLoop, List.map_cons, dedupFirstAux, if_neg hmem, List.map_cons]
      rw [ih]

theorem dedupFirstAux_not_mem_seen (ts seen : List String) (t : String)
    (h : t ∈ dedupFirstAux ts seen) : t ∉ seen := by
  induction ts generalizing seen with
  | nil => simp [dedupFirstAux] at h
  | cons a ts ih =>
    by_cases hmem : a ∈ seen
    · rw [dedupFirstAux, if_pos hmem] at h
      exact ih seen h
    · rw [dedupFirstAux, if_neg hmem] at h
      rcases List.mem_cons.mp h with rfl | h'
      · exact hmem
      · intro hts
        exact ih _ h' (List.mem_append_left _ hts)

theorem dedupFirstAux_nodup (ts seen : List String) : (dedupFirstAux ts seen).Nodup := by
  induction ts generalizing seen with
  | nil => simp [dedupFirstAux]
  | cons a ts ih =>
    by_cases hmem : a ∈ seen
    · rw [dedupFirstAux, if_pos hmem]
      exact ih seen
    · rw [dedupFirstAux, if_neg hmem]
      refine List.nodup_cons.mpr ⟨?_, ih _⟩
      intro ha
      exact dedupFirstAux_not_mem_seen ts _ a ha (List.mem_append_right _ (by simp))

theorem dedupFirstAux_mem_of_mem (ts seen : List String) (t : String)
    (hts : t ∈ ts) (hseen : t ∉ seen) : t ∈ dedupFirstAux ts seen := by
  induction ts generalizing seen with
  | nil => simp at hts
  | cons a ts ih =>
    rcases List.mem_cons.mp hts with rfl | hts'
    · rw [dedupFirstAux, if_neg hseen]
      exact List.mem_cons_self _ _
    · by_cases hmem : a ∈ seen
      · rw [dedupFirstAux, if_pos hmem]
        exact ih seen hts' hseen
      · rw [dedupFirstAux, if_neg hmem]
        by_cases hta : t = a
        · exact hta ▸ List.mem_cons_self _ _
        · refine List.mem_cons_of_mem _ (ih _ hts' ?_)
          intro hmem'
          rcases List.mem_append.mp hmem' with h' | h'
          · exact hseen h'
          · exact hta (List.mem_singleton.mp h')

theorem prepend_injective (p : String) : Function.Injective (fun t => p ++ t) := by
  intro a b h
  apply String.ext
  have h2 := congrArg String.data h
  simp only [String.data_append] at h2
  exact List.append_cancel_left h2

/-! ## Claim theorems -/

/-- Claim C8: with neither utterances nor words provided (both empty), the
formatter returns the empty string and raises no error. -/
theorem empty_inputs_empty_string :
    format_diarized_transcription [] [] = Except.ok "" := rfl

/-- Claim C7: when the utterances argument is non-empty, the utterances
path is taken and the words argument is entirely ignored: the result does
not depend on `words` at all. -/
theorem utterances_priority_words_ignored (us : List Utterance) (ws ws' : List Word)
    (h : us ≠ []) :
    format_diarized_transcription us ws = format_diarized_transcription us ws' := by
  unfold format_diarized_transcription
  rw [if_pos h, if_pos h]

theorem utterances_priority_words_ignored_witness :
    format_diarized_transcription [⟨"a", some 0, some 1, none⟩] [⟨"w"⟩] =
      format_diarized_transcription [⟨"a", some 0, some 1, none⟩] [] :=
  utterances_priority_words_ignored _ _ _ (List.cons_ne_nil _ _)

/-- Claim C10: on a non-empty utterances argument the result is entirely
determined by the filtered list — never by the words argument — and an
empty filtered list renders as the empty string (no blocks, no error, no
fallback to the words path). -/
theorem utterance_branch_renders_filtered_no_fallback :
    (∀ (us : List Utterance) (ws : List Word), us ≠ [] →
      format_diarized_transcription us ws =
        Except.map renderGrouped (filter_duplicates us)) ∧
    renderGrouped [] = "" := by
  constructor
  · intro us ws h
    unfold format_diarized_transcription
    rw [if_pos h]
    cases filter_duplicates us <;> rfl
  · rfl

theorem utterance_branch_renders_filtered_no_fallback_witness :
    format_diarized_transcription [⟨"a", some 0, some 1, none⟩] [⟨"w"⟩] =
      Except.map renderGrouped (filter_duplicates [⟨"a", some 0, some 1, none⟩]) :=
  utterance_branch_renders_filtered_no_fallback.1 _ _ (List.cons_ne_nil _ _)

/-- Claim C5: the cleaned sequence returned by `filter_duplicates` is a
subsequence (in the same relative order, no reordering, duplication or
insertion) of the input's entries, each mapped to its cleaned record
(trimmed text, defaulted speaker). -/
theorem filter_duplicates_sublist (us : List Utterance) (out : List Cleaned)
    (h : filter_duplicates us = Except.ok out) :
    out.Sublist (us.map cleanOf) := by
  obtain ⟨t, ht, hsub⟩ := filterLoop_sublist us [] [] out h
  rw [ht, List.nil_append]
  exact hsub

theorem filter_duplicates_sublist_witness :
    ([Cleaned.mk 0 1 "Unknown Speaker" "a"]).Sublist
      ([(⟨"a", some 0, some 1, none⟩ : Utterance)].map cleanOf) :=
  filter_duplicates_sublist [⟨"a", some 0, some 1, none⟩] _ rfl

/-- Claim C1 (amended): the texts of the kept entries are pairwise
distinct — no kept entry's text equals any previously kept entry's text
(global exact-text dedup). -/
theorem filter_duplicates_texts_nodup (us : List Utterance) (out : List Cleaned)
    (h : filter_duplicates us = Except.ok out) :
    (out.map Cleaned.text).Nodup :=
  filterLoop_texts_nodup us [] [] out h (by simp) (by simp)

theorem filter_duplicates_texts_nodup_witness :
    (([Cleaned.mk 0 1 "Unknown Speaker" "a"]).map Cleaned.text).Nodup :=
  filter_duplicates_texts_nodup [⟨"a", some 0, some 1, none⟩] _ rfl

/-- Claim C1 (counterexample): the input `[uA, uX1, uX2]` contains two
entries (`uX1`, `uX2`) with identical trimmed text, yet the occurrence
surviving in the output is the second one (`uX2`), not the first:
`uX1` is overlap-suppressed (it starts exactly at `uA`'s end), its text is
therefore never recorded as seen, and the later duplicate is kept. -/
theorem dedup_keeps_second_occurrence :
    strip uX1.transcript = strip uX2.transcript ∧
    cleanOf uX2 ≠ cleanOf uX1 ∧
    filter_duplicates [uA, uX1, uX2] = Except.ok [cleanOf uA, cleanOf uX2] := by
  refine ⟨by decide, by decide, ?_⟩
  unfold filter_duplicates
  have k1 : filterLoop [uA, uX1, uX2] [] [] =
      filterLoop [uX1, uX2] [Cleaned.mk 0 10 "Unknown Speaker" "A"] ["A"] :=
    filterLoop_cons_keep uA [uX1, uX2] [] [] 0 10 rfl rfl (List.not_mem_nil _) rfl
  have k2 : filterLoop [uX1, uX2] [Cleaned.mk 0 10 "Unknown Speaker" "A"] ["A"] =
      filterLoop [uX2] [Cleaned.mk 0 10 "Unknown Speaker" "A"] ["A"] :=
    filterLoop_cons_overlap uX1 [uX2] _ _ 10 11 rfl rfl (by decide)
      (overlapsLast_true_of_getLast _ (Cleaned.mk 0 10 "Unknown Speaker" "A") 10 rfl
        (by show |(10 : ℚ) - 10| < 1 / 2; rw [abs_sub_lt_iff]; norm_num))
  have k3 : filterLoop [uX2] [Cleaned.mk 0 10 "Unknown Speaker" "A"] ["A"] =
      filterLoop [] [Cleaned.mk 0 10 "Unknown Speaker" "A",
        Cleaned.mk 20 21 "Unknown Speaker" "X"] ["A", "X"] :=
    filterLoop_cons_keep uX2 [] _ _ 20 21 rfl rfl (by decide)
      (overlapsLast_false_of_getLast _ (Cleaned.mk 0 10 "Unknown Speaker" "A") 20 rfl
        (by show ¬|(20 : ℚ) - 10| < 1 / 2; rw [abs_sub_lt_iff]; push_neg; norm_num))
  exact (k1.trans (k2.trans k3)).trans rfl

/-- Claim C2: an utterance record lacking a start or end timestamp makes
`filter_duplicates` — and the whole pipeline through
`format_diarized_transcription` — fail fast with the malformed-input
error, surfaced to the caller, rather than being silently skipped or
coerced. -/
theorem malformed_input_fails_fast (us : List Utterance) (ws : List Word)
    (h : ∃ u ∈ us, u.start = none ∨ u.end_ = none) :
    ∃ e, filter_duplicates us = Except.error e ∧
      format_diarized_transcription us ws = Except.error e := by
  obtain ⟨e, he⟩ := filterLoop_error_of_malformed us [] [] h
  have he' : filter_duplicates us = Except.error e := he
  refine ⟨e, he', ?_⟩
  have hne : us ≠ [] := by
    rcases h with ⟨u, hu, _⟩
    cases us
    · simp at hu
    · exact List.cons_ne_nil _ _
  unfold format_diarized_transcription
  rw [if_pos hne, he']

theorem malformed_input_fails_fast_witness :
    ∃ e, filter_duplicates [⟨"a", none, some 1, none⟩] = Except.error e ∧
      format_diarized_transcription [⟨"a", none, some 1, none⟩] [] = Except.error e :=
  malformed_input_fails_fast _ _ ⟨_, List.mem_cons_self _ _, Or.inl rfl⟩

/-- Claim C3: when the kept output is non-empty and ends in utterance `A`,
the next candidate `B` with `|B.start - A.end| < 0.5` is rejected (the loop
state is unchanged) regardless of `B`'s text — the absolute difference also
rejects a `B` starting before `A`'s end; and when the output so far is
empty the proximity check is not applied: a fresh-text candidate is kept
whatever its start time. -/
theorem overlap_rejection :
    (∀ (A : Cleaned) (B : Utterance) (us : List Utterance) (filtered : List Cleaned)
        (seen : List String) (sb eb : ℚ),
        B.start = some sb → B.end_ = some eb →
        filtered.getLast? = some A → |sb - A.end_time| < (1 / 2 : ℚ) →
        filterLoop (B :: us) filtered seen = filterLoop us filtered seen) ∧
    (∀ (B : Utterance) (us : List Utterance) (seen : List String) (sb eb : ℚ),
        B.start = some sb → B.end_ = some eb → strip B.transcript ∉ seen →
        filterLoop (B :: us) [] seen =
          filterLoop us
            [Cleaned.mk sb eb (B.speaker.getD "Unknown Speaker") (strip B.transcript)]
            (seen ++ [strip B.transcript])) := by
  constructor
  · intro A B us filtered seen sb eb hs he hl hov
    by_cases hmem : strip B.transcript ∈ seen
    · exact filterLoop_cons_seen B us filtered seen sb eb hs he hmem
    · exact filterLoop_cons_overlap B us filtered seen sb eb hs he hmem
        (overlapsLast_true_of_getLast filtered A sb hl hov)
  · intro B us seen sb eb hs he hmem
    have h := filterLoop_cons_keep B us [] seen sb eb hs he hmem rfl
    simpa using h

theorem overlap_rejection_witness :
    filterLoop [⟨"y", some 10, some 11, none⟩] [Cleaned.mk 0 10 "S" "x"] [] =
      filterLoop [] [Cleaned.mk 0 10 "S" "x"] [] :=
  overlap_rejection.1 (Cleaned.mk 0 10 "S" "x") _ _ _ _ 10 11 rfl rfl rfl
    (by show |(10 : ℚ) - 10| < 1 / 2; rw [abs_sub_lt_iff]; norm_num)

/-- Claim C6: in the fallback path (no utterances) only exact trimmed-text
dedup via a seen-set is applied and every surviving word becomes its own
`"Unknown Speaker"` block; in particular words `[w1, w1, w2]` with distinct
trimmed texts yield exactly two blocks, never merged into one. -/
theorem fallback_each_word_own_block :
    (∀ ws : List Word,
      format_diarized_transcription [] ws =
        Except.ok (String.intercalate "\n\n"
          ((dedupFirst (ws.map fun w => strip w.punctuated_word)).map
            fun t => "Unknown Speaker: " ++ t))) ∧
    (∀ w1 w2 : Word, strip w1.punctuated_word ≠ strip w2.punctuated_word →
      format_diarized_transcription [] [w1, w1, w2] =
        Except.ok ("Unknown Speaker: " ++ strip w1.punctuated_word ++ "\n\n" ++
          ("Unknown Speaker: " ++ strip w2.punctuated_word))) := by
  constructor
  · intro ws
    unfold format_diarized_transcription
    rw [if_neg (by simp)]
    rw [wordsLoop_eq_map_dedup]
    rfl
  · intro w1 w2 h
    unfold format_diarized_transcription
    rw [if_neg (by simp)]
    have hw : wordsLoop [w1, w1, w2] [] =
        ["Unknown Speaker: " ++ strip w1.punctuated_word,
         "Unknown Speaker: " ++ strip w2.punctuated_word] := by
      simp [wordsLoop, Ne.symm h]
    rw [hw]
    simp [String.intercalate, String.intercalate.go]

theorem fallback_each_word_own_block_witness :
    format_diarized_transcription [] [(⟨"a"⟩ : Word), ⟨"a"⟩, ⟨"b"⟩] =
      Except.ok ("Unknown Speaker: " ++ strip "a" ++ "\n\n" ++
        ("Unknown Speaker: " ++ strip "b")) :=
  fallback_each_word_own_block.2 ⟨"a"⟩ ⟨"b"⟩ (by decide)

/-- Claim C9: in the fallback path a word whose text trims to the empty
string is not filtered out: it is kept (exactly once) and rendered as the
block `"Unknown Speaker: "` — label, colon, space and nothing after — and
the overall output is still the blank-line join of the blocks. -/
theorem empty_trimmed_word_kept (ws : List Word)
    (h : "" ∈ ws.map fun w => strip w.punctuated_word) :
    "Unknown Speaker: " ∈ wordsLoop ws [] ∧
    (wordsLoop ws []).count "Unknown Speaker: " = 1 ∧
    format_diarized_transcription [] ws =
      Except.ok (String.intercalate "\n\n" (wordsLoop ws [])) := by
  have hmem0 : "" ∈ dedupFirstAux (ws.map fun w => strip w.punctuated_word) [] :=
    dedupFirstAux_mem_of_mem _ _ _ h (List.not_mem_nil _)
  have hkey : ("Unknown Speaker: " ++ "") = "Unknown Speaker: " := String.append_empty _
  refine ⟨?_, ?_, ?_⟩
  · rw [wordsLoop_eq_map_dedup]
    have hm := List.mem_map_of_mem (fun t => "Unknown Speaker: " ++ t) hmem0
    simpa [hkey] using hm
  · rw [wordsLoop_eq_map_dedup]
    have hc := List.count_map_of_injective
      (dedupFirstAux (ws.map fun w => strip w.punctuated_word) [])
      (fun t => "Unknown Speaker: " ++ t) (prepend_injective _) ""
    simp only [hkey] at hc
    rw [hc]
    exact List.count_eq_one_of_mem (dedupFirstAux_nodup _ _) hmem0
  · unfold format_diarized_transcription
    rw [if_neg (by simp)]

theorem empty_trimmed_word_kept_witness :
    "Unknown Speaker: " ∈ wordsLoop [(⟨""⟩ : Word)] [] ∧
    (wordsLoop [(⟨""⟩ : Word)] []).count "Unknown Speaker: " = 1 ∧
    format_diarized_transcription [] [(⟨""⟩ : Word)] =
      Except.ok (String.intercalate "\n\n" (wordsLoop [(⟨""⟩ : Word)] [])) :=
  empty_trimmed_word_kept _ (by decide)

/-- A grouping-loop step on an entry whose speaker equals the current
speaker appends its text to the current block. -/
theorem groupStep_same (st : GroupState) (u : Cleaned) (h : some u.speaker = st.current_speaker) :
    groupStep st u = { st with current_text := st.current_text ++ [u.text] } := by
  rw [groupStep, if_pos h]

/-- A grouping-loop step on an entry with a different speaker flushes the
pending block and starts a new one. -/
theorem groupStep_new (st : GroupState) (u : Cleaned) (h : some u.speaker ≠ st.current_speaker) :
    groupStep st u = ⟨flushBlock st, some u.speaker, [u.text]⟩ := by
  rw [groupStep, if_neg h]

/-- Claim C4: for utterances with speakers `[S1, S1, S2, S1]` and pairwise
distinct trimmed texts, none overlap-suppressed, the output is three
blocks — `"S1: a b"`, blank line, `"S2: c"`, blank line, `"S1: d"` — the
recurring speaker after the interruption starting a new block rather than
merging with the earlier `S1` block. -/
theorem grouping_after_interruption
    (S1 S2 a b c d : String) (s1 e1 s2 e2 s3 e3 s4 e4 : ℚ) (ws : List Word)
    (hS : S1 ≠ S2)
    (hba : strip b ≠ strip a) (hca : strip c ≠ strip a) (hcb : strip c ≠ strip b)
    (hda : strip d ≠ strip a) (hdb : strip d ≠ strip b) (hdc : strip d ≠ strip c)
    (h2 : ¬|s2 - e1| < (1 / 2 : ℚ)) (h3 : ¬|s3 - e2| < (1 / 2 : ℚ))
    (h4 : ¬|s4 - e3| < (1 / 2 : ℚ)) :
    format_diarized_transcription
      [⟨a, some s1, some e1, some S1⟩, ⟨b, some s2, some e2, some S1⟩,
       ⟨c, some s3, some e3, some S2⟩, ⟨d, some s4, some e4, some S1⟩] ws =
    Except.ok (S1 ++ ": " ++ strip a ++ " " ++ strip b ++ "\n\n" ++
      (S2 ++ ": " ++ strip c) ++ "\n\n" ++ (S1 ++ ": " ++ strip d)) := by
  have k1 : filter_duplicates
      [⟨a, some s1, some e1, some S1⟩, ⟨b, some s2, some e2, some S1⟩,
       ⟨c, some s3, some e3, some S2⟩, ⟨d, some s4, some e4, some S1⟩] =
      filterLoop [⟨b, some s2, some e2, some S1⟩, ⟨c, some s3, some e3, some S2⟩,
        ⟨d, some s4, some e4, some S1⟩] [Cleaned.mk s1 e1 S1 (strip a)] [strip a] :=
    filterLoop_cons_keep _ _ [] [] s1 e1 rfl rfl (List.not_mem_nil _) rfl
  have k2 : filterLoop [⟨b, some s2, some e2, some S1⟩, ⟨c, some s3, some e3, some S2⟩,
        ⟨d, some s4, some e4, some S1⟩] [Cleaned.mk s1 e1 S1 (strip a)] [strip a] =
      filterLoop [⟨c, some s3, some e3, some S2⟩, ⟨d, some s4, some e4, some S1⟩]
        [Cleaned.mk s1 e1 S1 (strip a), Cleaned.mk s2 e2 S1 (strip b)]
        [strip a, strip b] :=
    filterLoop_cons_keep _ _ _ _ s2 e2 rfl rfl (by simp [hba])
      (overlapsLast_false_of_getLast _ (Cleaned.mk s1 e1 S1 (strip a)) s2 rfl h2)
  have k3 : filterLoop [⟨c, some s3, some e3, some S2⟩, ⟨d, some s4, some e4, some S1⟩]
        [Cleaned.mk s1 e1 S1 (strip a), Cleaned.mk s2 e2 S1 (strip b)]
        [strip a, strip b] =
      filterLoop [⟨d, some s4, some e4, some S1⟩]
        [Cleaned.mk s1 e1 S1 (strip a), Cleaned.mk s2 e2 S1 (strip b),
         Cleaned.mk s3 e3 S2 (strip c)]
        [strip a, strip b, strip c] :=
    filterLoop_cons_keep _ _ _ _ s3 e3 rfl rfl (by simp [hca, hcb])
      (overlapsLast_false_of_getLast _ (Cleaned.mk s2 e2 S1 (strip b)) s3 (by simp) h3)
  have k4 : filterLoop [⟨d, some s4, some e4, some S1⟩]
        [Cleaned.mk s1 e1 S1 (strip a), Cleaned.mk s2 e2 S1 (strip b),
         Cleaned.mk s3 e3 S2 (strip c)]
        [strip a, strip b, strip c] =
      filterLoop []
        [Cleaned.mk s1 e1 S1 (strip a), Cleaned.mk s2 e2 S1 (strip b),
         Cleaned.mk s3 e3 S2 (strip c), Cleaned.mk s4 e4 S1 (strip d)]
        [strip a, strip b, strip c, strip d] :=
    filterLoop_cons_keep _ _ _ _ s4 e4 rfl rfl (by simp [hda, hdb, hdc])
      (overlapsLast_false_of_getLast _ (Cleaned.mk s3 e3 S2 (strip c)) s4 (by simp) h4)
  have hf : filter_duplicates
      [⟨a, some s1, some e1, some S1⟩, ⟨b, some s2, some e2, some S1⟩,
       ⟨c, some s3, some e3, some S2⟩, ⟨d, some s4, some e4, some S1⟩] =
      Except.ok [Cleaned.mk s1 e1 S1 (strip a), Cleaned.mk s2 e2 S1 (strip b),
        Cleaned.mk s3 e3 S2 (strip c), Cleaned.mk s4 e4 S1 (strip d)] :=
    (k1.trans (k2.trans (k3.trans k4))).trans rfl
  have g1 : groupStep ⟨[], none, []⟩ (Cleaned.mk s1 e1 S1 (strip a)) =
      ⟨[], some S1, [strip a]⟩ :=
    groupStep_new _ _ (Option.some_ne_none _)
  have g2 : groupStep ⟨[], some S1, [strip a]⟩ (Cleaned.mk s2 e2 S1 (strip b)) =
      ⟨[], some S1, [strip a, strip b]⟩ :=
    groupStep_same _ _ rfl
  have g3 : groupStep ⟨[], some S1, [strip a, strip b]⟩ (Cleaned.mk s3 e3 S2 (strip c)) =
      ⟨[S1 ++ ": " ++ (strip a ++ " " ++ strip b)], some S2, [strip c]⟩ :=
    groupStep_new _ _ (by simp only [ne_eq, Option.some.injEq]; exact Ne.symm hS)
  have g4 : groupStep ⟨[S1 ++ ": " ++ (strip a ++ " " ++ strip b)], some S2, [strip c]⟩
        (Cleaned.mk s4 e4 S1 (strip d)) =
      ⟨[S1 ++ ": " ++ (strip a ++ " " ++ strip b), S2 ++ ": " ++ strip c],
       some S1, [strip d]⟩ :=
    groupStep_new _ _ (by simp only [ne_eq, Option.some.injEq]; exact hS)
  have hfold : List.foldl groupStep ⟨[], none, []⟩
      [Cleaned.mk s1 e1 S1 (strip a), Cleaned.mk s2 e2 S1 (strip b),
       Cleaned.mk s3 e3 S2 (strip c), Cleaned.mk s4 e4 S1 (strip d)] =
      ⟨[S1 ++ ": " ++ (strip a ++ " " ++ strip b), S2 ++ ": " ++ strip c],
       some S1, [strip d]⟩ := by
    rw [List.foldl_cons, g1, List.foldl_cons, g2, List.foldl_cons, g3,
      List.foldl_cons, g4, List.foldl_nil]
  have hg : renderGrouped
      [Cleaned.mk s1 e1 S1 (strip a), Cleaned.mk s2 e2 S1 (strip b),
       Cleaned.mk s3 e3 S2 (strip c), Cleaned.mk s4 e4 S1 (strip d)] =
      String.intercalate "\n\n"
        [S1 ++ ": " ++ (strip a ++ " " ++ strip b), S2 ++ ": " ++ strip c,
         S1 ++ ": " ++ (strip d)] := by
    rw [renderGrouped, hfold]
    rfl
  unfold format_diarized_transcription
  rw [if_pos (List.cons_ne_nil _ _), hf]
  show Except.ok (renderGrouped
      [Cleaned.mk s1 e1 S1 (strip a), Cleaned.mk s2 e2 S1 (strip b),
       Cleaned.mk s3 e3 S2 (strip c), Cleaned.mk s4 e4 S1 (strip d)]) = _
  rw [hg]
  simp only [String.intercalate, String.intercalate.go, String.append_assoc]


theorem grouping_after_interruption_witness :
    format_diarized_transcription
      [⟨"a", some 0, some 1, some "S1"⟩, ⟨"b", some 10, some 11, some "S1"⟩,
       ⟨"c", some 20, some 21, some "S2"⟩, ⟨"d", some 30, some 31, some "S1"⟩] [] =
    Except.ok ("S1" ++ ": " ++ strip "a" ++ " " ++ strip "b" ++ "\n\n" ++
      ("S2" ++ ": " ++ strip "c") ++ "\n\n" ++ ("S1" ++ ": " ++ strip "d")) :=
  grouping_after_interruption "S1" "S2" "a" "b" "c" "d" 0 1 10 11 20 21 30 31 []
    (by decide) (by decide) (by decide) (by decide) (by decide) (by decide) (by decide)
    (by rw [abs_sub_lt_iff]; push_neg; norm_num)
    (by rw [abs_sub_lt_iff]; push_neg; norm_num)
    (by rw [abs_sub_lt_iff]; push_neg; norm_num)

end TransTranscriber
